import Mathlib

/-!
Verification of the habit-tracker core (`main_library.py`, class `EditHabits`).

The Python `habit_data` document is shallowly embedded as `HabitData`:
Python dicts become insertion-ordered association lists, JSON arrays become
Lean lists, and `datetime` values become the `Date` structure together with
explicit models of the two `strptime` format strings the source uses.
Every mutating operation returns the new document paired with a `Bool`
recording whether `save_habit_data` was called on that path; `print` calls
carry no state and are dropped.  `analyze_habits` returns `Option Analysis`,
where `none` models the uncaught `ValueError` that `datetime.strptime`
raises on a timestamp that does not match `"%Y-%m-%d %H:%M:%S.%f"`.
-/

/-! ## Association-list model of Python dicts -/

/-- Python `d[k]` / `k in d` lookup on an insertion-ordered dict. -/
def lookupA {α : Type} : List (String × α) → String → Option α
  | [], _ => none
  | (k, v) :: r, key => if k = key then some v else lookupA r key

/-- Python `d[k] = v` for a key already present: the value is replaced in
place, insertion order unchanged. -/
def updateA {α : Type} : List (String × α) → String → α → List (String × α)
  | [], _, _ => []
  | (k, v) :: r, key, nv => if k = key then (k, nv) :: r else (k, v) :: updateA r key nv

/-! ## Small string helpers modelling Python string operations -/

/-- Model of Python `s.startswith(pre)` on character lists:
`isStartOf pre s` is true when `pre` is an initial segment of `s`. -/
def isStartOf : List Char → List Char → Bool
  | [], _ => true
  | _ :: _, [] => false
  | p :: ps, c :: cs => p = c && isStartOf ps cs

/-- Model of Python `needle in hay` (substring containment). -/
def listContains (needle : List Char) : List Char → Bool
  | [] => isStartOf needle []
  | c :: rest => isStartOf needle (c :: rest) || listContains needle rest

/-- Python `habit[1].startswith(x)`. -/
def pyStartsWith (s pre : String) : Bool := isStartOf pre.toList s.toList

/-- Python `x in habit[1]` for strings. -/
def pyIn (needle hay : String) : Bool := listContains needle.toList hay.toList

/-- Decimal digit character. -/
def digitChar (n : Nat) : Char := Char.ofNat (48 + n)

/-- Two-digit zero-padded rendering, as produced by `strftime("%d")` and
`strftime("%m")` for the in-range values the source feeds it. -/
def pad2 (n : Nat) : String := String.mk [digitChar (n / 10 % 10), digitChar (n % 10)]

/-! ## Calendar dates (`datetime.date` values) -/

/-- The value of `datetime.strptime(...).date()`: a proleptic-Gregorian
calendar date. -/
structure Date where
  year : Nat
  month : Nat
  day : Nat
deriving DecidableEq

/-- Gregorian leap-year rule (as in `datetime`). -/
def isLeap (y : Nat) : Bool := y % 4 = 0 && (y % 100 != 0 || y % 400 = 0)

/-- Length of a month (month numbered 1..12). -/
def daysInMonth (y m : Nat) : Nat :=
  if m = 2 then (if isLeap y then 29 else 28)
  else if m = 4 || m = 6 || m = 9 || m = 11 then 30
  else 31

/-- Days in the full months preceding month `m` of a year with leap flag
`leap`. -/
def daysBeforeMonth (leap : Bool) (m : Nat) : Nat :=
  (if m > 1 then 31 else 0) + (if m > 2 then (if leap then 29 else 28) else 0) +
  (if m > 3 then 31 else 0) + (if m > 4 then 30 else 0) + (if m > 5 then 31 else 0) +
  (if m > 6 then 30 else 0) + (if m > 7 then 31 else 0) + (if m > 8 then 31 else 0) +
  (if m > 9 then 30 else 0) + (if m > 10 then 31 else 0) + (if m > 11 then 30 else 0)

/-- Rata-die day number (0001-01-01 ↦ 1), the proleptic-Gregorian ordinal
used by `datetime.date.toordinal`. -/
def rataDie (t : Date) : Nat :=
  365 * (t.year - 1) + (t.year - 1) / 4 - (t.year - 1) / 100 + (t.year - 1) / 400 +
    daysBeforeMonth (isLeap t.year) t.month + t.day

/-- Full English weekday name, as produced by `strftime("%A")`
(0001-01-01 was a Monday in the proleptic Gregorian calendar). -/
def weekdayName (t : Date) : String :=
  [ "Monday", "Tuesday", "Wednesday", "Thursday", "Friday", "Saturday", "Sunday"
  ].getD ((rataDie t + 6) % 7) ""

/-- The calendar successor: `last_date + timedelta(days=1)`. -/
def addOneDay (t : Date) : Date :=
  if t.day < daysInMonth t.year t.month then ⟨t.year, t.month, t.day + 1⟩
  else if t.month < 12 then ⟨t.year, t.month + 1, 1⟩
  else ⟨t.year + 1, 1, 1⟩

/-- Order on dates (`datetime.date` comparison): lexicographic on
(year, month, day). -/
def dateLE (a b : Date) : Bool :=
  a.year < b.year || (a.year = b.year &&
    (a.month < b.month || (a.month = b.month && a.day ≤ b.day)))

/-- Insert into an ascending list, used to model Python `list.sort()`.
On dates the ascending reordering is unique (equal keys are identical
values), so this models `completed_dates.sort()` exactly. -/
def insertSorted (d : Date) : List Date → List Date
  | [] => [d]
  | x :: xs => if dateLE d x then d :: x :: xs else x :: insertSorted d xs

/-- Model of Python `completed_dates.sort()` (ascending). -/
def sortDates : List Date → List Date
  | [] => []
  | d :: ds => insertSorted d (sortDates ds)

/-! ## `datetime.strptime` for the two formats the source uses

CPython's `_strptime` compiles a format string to a regular expression;
the digit-token character classes are, in alternation order:
`%Y ↦ \d{4}`, `%m ↦ 1[0-2]|0[1-9]|[1-9]`, `%d ↦ 3[01]|[12]\d|0[1-9]|[1-9]`,
`%H ↦ 2[0-3]|[0-1]\d|\d`, `%M,%S ↦ [0-5]\d|\d`, `%f ↦ [0-9]{1,6}`,
each followed in the formats below by a literal delimiter (or the end of
the input), and the whole input must be consumed.  `datetime` construction
then validates the field ranges (day against the month length). -/

/-- Numeric value of a digit character. -/
def digitVal (c : Char) : Nat := c.toNat - 48

/-- Token `%Y`: exactly four digits. -/
def parseY4 : List Char → Option (Nat × List Char)
  | a :: b :: c :: d :: rest =>
      if a.isDigit && b.isDigit && c.isDigit && d.isDigit then
        some (digitVal a * 1000 + digitVal b * 100 + digitVal c * 10 + digitVal d, rest)
      else none
  | _ => none

/-- Token `%m`: `1[0-2]|0[1-9]|[1-9]`. -/
def parseMonth : List Char → Option (Nat × List Char)
  | '1' :: c :: rest =>
      if '0' ≤ c && c ≤ '2' then some (10 + digitVal c, rest) else some (1, c :: rest)
  | '0' :: c :: rest =>
      if '1' ≤ c && c ≤ '9' then some (digitVal c, rest) else none
  | c :: rest => if '1' ≤ c && c ≤ '9' then some (digitVal c, rest) else none
  | [] => none

/-- Token `%d`: `3[01]|[12]\d|0[1-9]|[1-9]`. -/
def parseDayTok : List Char → Option (Nat × List Char)
  | '3' :: c :: rest =>
      if c = '0' || c = '1' then some (30 + digitVal c, rest) else some (3, c :: rest)
  | c1 :: c2 :: rest =>
      if (c1 = '1' || c1 = '2') && c2.isDigit then some (digitVal c1 * 10 + digitVal c2, rest)
      else if c1 = '0' && '1' ≤ c2 && c2 ≤ '9' then some (digitVal c2, rest)
      else if '1' ≤ c1 && c1 ≤ '9' then some (digitVal c1, c2 :: rest)
      else none
  | [c] => if '1' ≤ c && c ≤ '9' then some (digitVal c, []) else none
  | [] => none

/-- Token `%H`: `2[0-3]|[0-1]\d|\d`. -/
def parseHour : List Char → Option (Nat × List Char)
  | '2' :: c :: rest =>
      if '0' ≤ c && c ≤ '3' then some (20 + digitVal c, rest) else some (2, c :: rest)
  | c1 :: c2 :: rest =>
      if (c1 = '0' || c1 = '1') && c2.isDigit then some (digitVal c1 * 10 + digitVal c2, rest)
      else if c1.isDigit then some (digitVal c1, c2 :: rest)
      else none
  | [c] => if c.isDigit then some (digitVal c, []) else none
  | [] => none

/-- Tokens `%M` and `%S`: `[0-5]\d|\d`. -/
def parseMinSec : List Char → Option (Nat × List Char)
  | c1 :: c2 :: rest =>
      if '0' ≤ c1 && c1 ≤ '5' && c2.isDigit then some (digitVal c1 * 10 + digitVal c2, rest)
      else if c1.isDigit then some (digitVal c1, c2 :: rest)
      else none
  | [c] => if c.isDigit then some (digitVal c, []) else none
  | [] => none

/-- Token `%f`: one to six digits, greedy. -/
def parseFrac : Nat → List Char → Option (List Char)
  | _, [] => some []
  | 0, rest => some rest
  | k + 1, c :: rest => if c.isDigit then parseFrac k rest else some (c :: rest)

/-- Literal character in the format string. -/
def expectChar (c : Char) : List Char → Option (List Char)
  | [] => none
  | x :: rest => if x = c then some rest else none

/-- Field validation performed by the `datetime` constructor. -/
def validDate (y m d : Nat) : Bool :=
  1 ≤ y && y ≤ 9999 && 1 ≤ m && m ≤ 12 && 1 ≤ d && d ≤ daysInMonth y m

/-- Model of `datetime.strptime(s, "%Y-%m-%d")`, returning the date on
success and `none` where Python raises `ValueError`. -/
def strptimeYMD (s : String) : Option Date := do
  let (y, r1) ← parseY4 s.toList
  let r2 ← expectChar '-' r1
  let (m, r3) ← parseMonth r2
  let r4 ← expectChar '-' r3
  let (d, r5) ← parseDayTok r4
  match r5 with
  | [] => if validDate y m d then some ⟨y, m, d⟩ else none
  | _ :: _ => none

/-- Model of `datetime.strptime(s, "%Y-%m-%d %H:%M:%S.%f").date()`,
returning the calendar-date component on success and `none` where Python
raises `ValueError`. -/
def strptimeMicroDate (s : String) : Option Date := do
  let (y, r1) ← parseY4 s.toList
  let r2 ← expectChar '-' r1
  let (m, r3) ← parseMonth r2
  let r4 ← expectChar '-' r3
  let (d, r5) ← parseDayTok r4
  let r6 ← expectChar ' ' r5
  let (_, r7) ← parseHour r6
  let r8 ← expectChar ':' r7
  let (_, r9) ← parseMinSec r8
  let r10 ← expectChar ':' r9
  let (_, r11) ← parseMinSec r10
  let r12 ← expectChar '.' r11
  match r12 with
  | [] => none
  | c :: rest =>
      if c.isDigit then
        match parseFrac 5 rest with
        | some [] => if validDate y m d then some ⟨y, m, d⟩ else none
        | _ => none
      else none

/-! ## The habit document and its operations -/

/-- One value of the `history` dict:
`{"created": ..., "completed": [...], "removed": ...}`. -/
structure HistoryRecord where
  created : Option String
  completed : List String
  removed : Option String
deriving DecidableEq

/-- The `habit_data` document.  The three top-level fields model the
`self.habit_data.get("uncompleted_habits", {})`-style accesses the source
performs; inner dicts are insertion-ordered association lists, so a
malformed or empty loaded document (missing or extra period keys) is
representable. -/
structure HabitData where
  uncompleted_habits : List (String × List (String × String))
  completed_habits : List (String × List (String × String))
  history : List (String × HistoryRecord)
deriving DecidableEq

/-- The valid period names (`self.expected_periods`). -/
def expected_periods : List String := ["daily", "weekly", "monthly", "yearly", "once_off"]

/-- The Python loop `for habit in bucket: if habit[0] == task: ...`,
returning the first entry whose task matches. -/
def findTask (task : String) : List (String × String) → Option (String × String)
  | [] => none
  | e :: es => if e.1 = task then some e else findTask task es

/-- Python `bucket.remove(habit)`: removes the first element equal to the
given value. -/
def removeFirstVal (e : String × String) : List (String × String) → List (String × String)
  | [] => []
  | x :: xs => if x = e then xs else x :: removeFirstVal e xs

/-- History update shared by the removal operations: set
`history[task]["removed"] = now`, creating the record (with empty
`completed`) when the task has no history entry yet. -/
def historySetRemoved (h : List (String × HistoryRecord)) (task now : String) :
    List (String × HistoryRecord) :=
  match lookupA h task with
  | some r => updateA h task { r with removed := some now }
  | none => h ++ [(task, ⟨none, [], some now⟩)]

/-- History update shared by the completion operations: append `now` to
`history[task]["completed"]`, creating the record when absent. -/
def historyAppendCompleted (h : List (String × HistoryRecord)) (task now : String) :
    List (String × HistoryRecord) :=
  match lookupA h task with
  | some r => updateA h task { r with completed := r.completed ++ [now] }
  | none => h ++ [(task, ⟨none, [now], none⟩)]

/-- `EditHabits.add_uncompleted_habit(period, task, time)`; `now` is the
value of `str(datetime.now())`.  The returned `Bool` records whether
`save_habit_data` ran. -/
def add_uncompleted_habit (d : HabitData) (period task time now : String) :
    HabitData × Bool :=
  match lookupA d.uncompleted_habits period with
  | some lst =>
      let d1 := { d with
        uncompleted_habits := updateA d.uncompleted_habits period (lst ++ [(task, time)]) }
      let d2 :=
        if (lookupA d1.history task).isNone then
          { d1 with history := d1.history ++ [(task, ⟨some now, [], none⟩)] }
        else d1
      (d2, true)
  | none => (d, false)

/-- `EditHabits.remove_uncompleted_habit(period, task)`. -/
def remove_uncompleted_habit (d : HabitData) (period task now : String) :
    HabitData × Bool :=
  match lookupA d.uncompleted_habits period with
  | some lst =>
      match findTask task lst with
      | some habit =>
          let d1 := { d with
            uncompleted_habits := updateA d.uncompleted_habits period (removeFirstVal habit lst) }
          let d2 := { d1 with history := historySetRemoved d1.history task now }
          (d2, true)
      | none => (d, false)
  | none => (d, false)

/-- `EditHabits.move_to_completed(period, task)`: appends `(task, now)` to
the completed bucket, logs `now` in the history, and removes the matched
entry from the uncompleted bucket only when `period == "once_off"`. -/
def move_to_completed (d : HabitData) (period task now : String) :
    HabitData × Bool :=
  match lookupA d.uncompleted_habits period, lookupA d.completed_habits period with
  | some ul, some cl =>
      match findTask task ul with
      | some habit =>
          let d1 := { d with
            completed_habits := updateA d.completed_habits period (cl ++ [(task, now)]) }
          let d2 := { d1 with history := historyAppendCompleted d1.history task now }
          let d3 :=
            if period = "once_off" then
              { d2 with
                uncompleted_habits := updateA d2.uncompleted_habits period (removeFirstVal habit ul) }
            else d2
          (d3, true)
      | none => (d, false)
  | _, _ => (d, false)

/-- `EditHabits.add_completed_habit(period, task, completion_time)`. -/
def add_completed_habit (d : HabitData) (period task completion_time : String) :
    HabitData × Bool :=
  match lookupA d.completed_habits period with
  | some lst =>
      let d1 := { d with
        completed_habits := updateA d.completed_habits period (lst ++ [(task, completion_time)]) }
      let d2 := { d1 with
        history := historyAppendCompleted d1.history task completion_time }
      (d2, true)
  | none => (d, false)

/-- `EditHabits.remove_completed_habit(period, task)`. -/
def remove_completed_habit (d : HabitData) (period task now : String) :
    HabitData × Bool :=
  match lookupA d.completed_habits period with
  | some lst =>
      match findTask task lst with
      | some habit =>
          let d1 := { d with
            completed_habits := updateA d.completed_habits period (removeFirstVal habit lst) }
          let d2 := { d1 with history := historySetRemoved d1.history task now }
          (d2, true)
      | none => (d, false)
  | none => (d, false)

/-- Python truthiness used by `edit_uncompleted_habit`: `if new_task:`
keeps the old value when the argument is `None` or the empty string. -/
def truthyOr (o : Option String) (old : String) : String :=
  match o with
  | some s => if s = "" then old else s
  | none => old

/-- In-place edit of the first entry matching `old_task`. -/
def editFirstTask (old_task : String) (nt ns : Option String) :
    List (String × String) → List (String × String)
  | [] => []
  | x :: xs =>
      if x.1 = old_task then (truthyOr nt x.1, truthyOr ns x.2) :: xs
      else x :: editFirstTask old_task nt ns xs

/-- `EditHabits.edit_uncompleted_habit(period, old_task, new_task, new_time)`. -/
def edit_uncompleted_habit (d : HabitData) (period old_task : String)
    (new_task new_time : Option String) : HabitData × Bool :=
  match lookupA d.uncompleted_habits period with
  | some lst =>
      match findTask old_task lst with
      | some _ =>
          ({ d with
              uncompleted_habits :=
                updateA d.uncompleted_habits period (editFirstTask old_task new_task new_time lst) },
            true)
      | none => (d, false)
  | none => (d, false)

/-- The source's `self.habit_data.get("uncompleted_habits", {}).get(p, [])`. -/
def bucketU (d : HabitData) (p : String) : List (String × String) :=
  (lookupA d.uncompleted_habits p).getD []

/-- Completed-bucket lookup with the same dict-access defaults. -/
def bucketC (d : HabitData) (p : String) : List (String × String) :=
  (lookupA d.completed_habits p).getD []

/-- The `completed` list of a history dict at `task`, read as `[]` when the
task has no record. -/
def histC (h : List (String × HistoryRecord)) (task : String) : List String :=
  ((lookupA h task).map HistoryRecord.completed).getD []

/-- The `completed` list of `history[task]`, read as `[]` when the task has
no history record. -/
def histCompleted (d : HabitData) (task : String) : List String :=
  histC d.history task

/-! ## `get_tasks_for_day` -/

/-- One of the Python loops
`for habit in lst: if cond(habit): acc.append(render(habit))`,
threading the accumulator list exactly as the source does. -/
def appendMatches (render : String × String → String) (cond : String × String → Bool) :
    List (String × String) → List String → List String
  | [], acc => acc
  | h :: hs, acc =>
      appendMatches render cond hs (if cond h then acc ++ [render h] else acc)

/-- `EditHabits.get_tasks_for_day(date)`: parse the date (returning `[]` on
a `ValueError`), then run the five per-period matching loops in order. -/
def get_tasks_for_day (d : HabitData) (date : String) : List String :=
  match strptimeYMD date with
  | none => []
  | some t =>
      let acc := appendMatches (fun h => "Daily: " ++ h.1 ++ " at " ++ h.2)
        (fun _ => true) (bucketU d "daily") []
      let day_of_week := weekdayName t
      let acc := appendMatches (fun h => "Weekly: " ++ h.1 ++ " at " ++ h.2)
        (fun h => pyIn day_of_week h.2) (bucketU d "weekly") acc
      let day_of_month := pad2 t.day
      let acc := appendMatches (fun h => "Monthly: " ++ h.1 ++ " at " ++ h.2)
        (fun h => pyStartsWith h.2 day_of_month) (bucketU d "monthly") acc
      let month_day := pad2 t.month ++ "-" ++ pad2 t.day
      let acc := appendMatches (fun h => "Yearly: " ++ h.1 ++ " at " ++ h.2)
        (fun h => pyStartsWith h.2 month_day) (bucketU d "yearly") acc
      let acc := appendMatches (fun h => "Once-off: " ++ h.1 ++ " at " ++ h.2)
        (fun h => pyStartsWith h.2 date) (bucketU d "once_off") acc
      acc

/-! ## `analyze_habits` -/

/-- Result dictionary of `analyze_habits`; the pairs are the
`{"habit": ..., "streak_length"/"missed_count": ...}` sub-dicts. -/
structure Analysis where
  longest_streak : Option String × Nat
  current_daily_habits : List String
  most_challenging : Option String × Nat
deriving DecidableEq

/-- The streak loop of `analyze_habits`: arguments are the remaining sorted
dates, `current_streak`, `max_streak` and `last_date`. -/
def streakLoop : List Date → Nat → Nat → Option Date → Nat
  | [], _, maxS, _ => maxS
  | date :: ds, cur, maxS, last =>
      let cur' :=
        match last with
        | some ld => if date = addOneDay ld then cur + 1 else 1
        | none => 1
      streakLoop ds cur' (max maxS cur') (some date)

/-- `max_streak` for one task's completion dates. -/
def streakFold (ds : List Date) : Nat := streakLoop ds 0 0 none

/-- The per-iteration body of the history loop: parse every completion
timestamp (a `ValueError` aborts the whole analysis), sort, fold the streak
and update the two strictly-increasing running maxima. -/
def analyzeStep (st : (Option String × Nat) × (Option String × Nat))
    (e : String × HistoryRecord) :
    Option ((Option String × Nat) × (Option String × Nat)) := do
  let dates ← e.2.completed.mapM strptimeMicroDate
  let max_streak := streakFold (sortDates dates)
  let ls := if max_streak > st.1.2 then (some e.1, max_streak) else st.1
  let missed_count := e.2.completed.length
  let mc := if missed_count > st.2.2 then (some e.1, missed_count) else st.2
  return (ls, mc)

/-- The `for task, details in history.items()` loop of `analyze_habits`. -/
def analyzeLoop (h : List (String × HistoryRecord))
    (st : (Option String × Nat) × (Option String × Nat)) :
    Option ((Option String × Nat) × (Option String × Nat)) :=
  h.foldlM analyzeStep st

/-- `EditHabits.analyze_habits()`.  Returns `none` where the Python code
raises `ValueError` out of `strptime`.  (The write-only `habit_streaks`
dict and the unused `today` variable have no observable effect and are
omitted.) -/
def analyze_habits (d : HabitData) : Option Analysis :=
  (analyzeLoop d.history ((none, 0), (none, 0))).map fun st =>
    { longest_streak := st.1
      current_daily_habits :=
        (bucketU d "daily").map (fun h => h.1 ++ " at " ++ h.2)
      most_challenging := st.2 }

/-! ## Specification-side definitions

These follow the wording of the specification, to be compared with the
operational definitions above. -/

/-- Specification reading of the scheduler: the concatenation, in order, of
the five per-period filters, each match rendered as
`"<Period>: <task> at <schedule>"`.  The OnceOff rule compares against the
date string exactly as given. -/
def tasksDueOnSpec (d : HabitData) (date : String) (t : Date) : List String :=
  ((bucketU d "daily").map fun h => "Daily: " ++ h.1 ++ " at " ++ h.2)
  ++ (((bucketU d "weekly").filter fun h => pyIn (weekdayName t) h.2).map
        fun h => "Weekly: " ++ h.1 ++ " at " ++ h.2)
  ++ (((bucketU d "monthly").filter fun h => pyStartsWith h.2 (pad2 t.day)).map
        fun h => "Monthly: " ++ h.1 ++ " at " ++ h.2)
  ++ (((bucketU d "yearly").filter fun h => pyStartsWith h.2 (pad2 t.month ++ "-" ++ pad2 t.day)).map
        fun h => "Yearly: " ++ h.1 ++ " at " ++ h.2)
  ++ (((bucketU d "once_off").filter fun h => pyStartsWith h.2 date).map
        fun h => "Once-off: " ++ h.1 ++ " at " ++ h.2)

/-- Length of the consecutive-day chain continuing a run that ended on
`ld`: counts the initial segment in which each date is exactly one day
after the previous. -/
def contLen (ld : Date) : List Date → Nat
  | [] => 0
  | d :: ds => if d = addOneDay ld then 1 + contLen d ds else 0

/-- Length of the consecutive-day run starting at the head of the list. -/
def runLen : List Date → Nat
  | [] => 0
  | d :: ds => 1 + contLen d ds

/-- Specification reading of the streak: over a list of calendar dates, the
length of the longest run in which each date is exactly one day after the
previous — the maximum, over every starting position, of the run length
from that position. -/
def longestRun : List Date → Nat
  | [] => 0
  | d :: ds => max (runLen (d :: ds)) (longestRun ds)

/-- Maximum of `f` over a list (0 when empty). -/
def listMax {α : Type} (f : α → Nat) (l : List α) : Nat :=
  (l.map f).foldr max 0

/-- The strictly-increasing running-maximum accumulator used by the history
loop of `analyze_habits`: the label `g x` and value `f x` replace the state
only on a strictly greater value. -/
def argmaxGo {α β : Type} (f : α → Nat) (g : α → β) :
    List α → Option β × Nat → Option β × Nat
  | [], st => st
  | x :: xs, st => argmaxGo f g xs (if f x > st.2 then (some (g x), f x) else st)

/-- The per-task streak value the specification describes: completion
timestamps reduced to calendar dates, sorted ascending, then the longest
consecutive-day run. -/
def specStreak (e : String × HistoryRecord) : Nat :=
  longestRun (sortDates ((e.2.completed.mapM strptimeMicroDate).getD []))

/-- The per-task value behind `most_challenging`: the total count of
recorded completion timestamps. -/
def specCount (e : String × HistoryRecord) : Nat := e.2.completed.length

/-- The per-task `max_streak` value as the code computes it (parse, sort,
fold); `getD []` is only reached when some timestamp fails to parse, in
which case `analyze_habits` returns `none` and the value is irrelevant. -/
def codeStreak (e : String × HistoryRecord) : Nat :=
  streakFold (sortDates ((e.2.completed.mapM strptimeMicroDate).getD []))

/-- `new` extends `old`: the earlier sequence is an initial segment and
nothing was removed or retracted. -/
def growsTo (old new : List String) : Prop := ∃ t, new = old ++ t

/-- A well-formed loaded document: both period dicts have exactly the five
expected period keys, in their creation order. -/
def Wf (d : HabitData) : Prop :=
  d.uncompleted_habits.map Prod.fst = expected_periods ∧
  d.completed_habits.map Prod.fst = expected_periods

/-! ## Sample documents used in concrete instances -/

/-- Five empty period buckets, as produced by `create_empty_habits_file`. -/
def emptyBuckets : List (String × List (String × String)) :=
  [("daily", []), ("weekly", []), ("monthly", []), ("yearly", []), ("once_off", [])]

/-- History of the specification's streak example: completions for task
`"X"` on 2024-01-01, 01-02, 01-03 and 01-10. -/
def dStreakX : HabitData :=
  { uncompleted_habits := emptyBuckets
    completed_habits := emptyBuckets
    history := [("X", ⟨none,
      [ "2024-01-01 07:00:00.000000", "2024-01-02 07:00:00.000000",
        "2024-01-03 07:00:00.000000", "2024-01-10 07:00:00.000000"], none⟩)] }

/-- Three consecutive days of completions for `"Y"`, the middle day
completed twice. -/
def dDupY : HabitData :=
  { uncompleted_habits := emptyBuckets
    completed_habits := emptyBuckets
    history := [("Y", ⟨none,
      [ "2024-01-01 07:00:00.000000", "2024-01-02 07:00:00.000000",
        "2024-01-02 09:00:00.000000", "2024-01-03 07:00:00.000000"], none⟩)] }

/-- A document whose history holds one completion timestamp in the coarse
`YYYY-MM-DD HH:MM` form that `add_completed_habit` stores. -/
def dCoarse : HabitData :=
  { uncompleted_habits := emptyBuckets
    completed_habits := emptyBuckets
    history := [("Project Deadline", ⟨none, ["2024-11-01 17:00"], none⟩)] }

/-- A registry holding a single once-off habit scheduled for 2024-01-01. -/
def dOnceOff : HabitData :=
  { uncompleted_habits :=
      [("daily", []), ("weekly", []), ("monthly", []), ("yearly", []),
       ("once_off", [("Party", "2024-01-01 17:00")])]
    completed_habits := emptyBuckets
    history := [] }

/-- A registry with one habit in every period bucket. -/
def dFull : HabitData :=
  { uncompleted_habits :=
      [("daily", [("Drink Water", "08:00")]),
       ("weekly", [("Weekly Meeting", "Monday 09:00"), ("Shopping", "Tuesday 10:00")]),
       ("monthly", [("Pay Rent", "01 09:00"), ("Team Meeting", "15 11:00")]),
       ("yearly", [("Doctor Checkup", "10-15 14:00")]),
       ("once_off", [("Wedding", "2024-10-15 16:00")])]
    completed_habits := emptyBuckets
    history := [] }

/-- A once-off habit that has already been completed: gone from the
uncompleted bucket, present in the completed bucket. -/
def dOnceDone : HabitData :=
  { uncompleted_habits := emptyBuckets
    completed_habits :=
      [("daily", []), ("weekly", []), ("monthly", []), ("yearly", []),
       ("once_off", [("Party", "2024-01-01 17:30:00.000000")])]
    history := [("Party",
      ⟨some "2024-01-01 09:00:00.000000", ["2024-01-01 17:30:00.000000"], none⟩)] }

/-- A history holding one task with no recorded completions. -/
def dZeroA : HabitData :=
  { uncompleted_habits := emptyBuckets
    completed_habits := emptyBuckets
    history := [("A", ⟨none, [], none⟩)] }

/-- An empty well-formed registry. -/
def dEmpty : HabitData :=
  { uncompleted_habits := emptyBuckets
    completed_habits := emptyBuckets
    history := [] }

/-- The value `load_habit_data` returns when the persisted document is
missing or corrupt: the empty dict, with no period keys at all. -/
def dLoadFailed : HabitData := { uncompleted_habits := [], completed_habits := [], history := [] }

/-! ## Lemmas about the dict model -/

theorem lookupA_updateA_self {α : Type} (l : List (String × α)) (k : String) (v : α) :
    lookupA (updateA l k v) k = (lookupA l k).map (fun _ => v) := by
  induction l with
  | nil => simp [lookupA, updateA]
  | cons e r ih =>
    obtain ⟨k', v'⟩ := e
    by_cases h : k' = k
    · subst h; simp [lookupA, updateA]
    · simp [lookupA, updateA, h, ih]

theorem lookupA_updateA_ne {α : Type} (l : List (String × α)) (k k' : String) (v : α)
    (h : k' ≠ k) : lookupA (updateA l k v) k' = lookupA l k' := by
  induction l with
  | nil => simp [lookupA, updateA]
  | cons e r ih =>
    obtain ⟨k'', v''⟩ := e
    by_cases hk : k'' = k
    · subst hk
      simp only [updateA, if_pos rfl, lookupA]
      rw [if_neg (fun he => h he.symm), if_neg (fun he => h he.symm)]
    · simp only [updateA, if_neg hk, lookupA]
      by_cases hk' : k'' = k'
      · simp [hk']
      · simp [hk', ih]

theorem lookupA_append_of_some {α : Type} {l1 : List (String × α)} {k : String} {v : α}
    (l2 : List (String × α)) (h : lookupA l1 k = some v) :
    lookupA (l1 ++ l2) k = some v := by
  induction l1 with
  | nil => simp [lookupA] at h
  | cons e r ih =>
    obtain ⟨k', v'⟩ := e
    by_cases hk : k' = k
    · simp only [lookupA, if_pos hk] at h
      simp [lookupA, hk, h]
    · simp only [lookupA, if_neg hk] at h
      simp [lookupA, hk, ih h]

theorem lookupA_append_of_none {α : Type} {l1 : List (String × α)} {k : String}
    (l2 : List (String × α)) (h : lookupA l1 k = none) :
    lookupA (l1 ++ l2) k = lookupA l2 k := by
  induction l1 with
  | nil => simp [lookupA]
  | cons e r ih =>
    obtain ⟨k', v'⟩ := e
    by_cases hk : k' = k
    · simp [lookupA, hk] at h
    · simp only [lookupA, if_neg hk] at h
      simp [lookupA, hk, ih h]

theorem lookupA_isSome_iff {α : Type} (l : List (String × α)) (k : String) :
    (lookupA l k).isSome = true ↔ k ∈ l.map Prod.fst := by
  induction l with
  | nil => simp [lookupA]
  | cons e r ih =>
    obtain ⟨k', v'⟩ := e
    by_cases hk : k' = k
    · subst hk; simp [lookupA]
    · simp only [lookupA, if_neg hk, List.map_cons, List.mem_cons, ih]
      constructor
      · exact Or.inr
      · rintro (h | h)
        · exact absurd h.symm hk
        · exact h

theorem findTask_mem {task : String} {l : List (String × String)} {e : String × String}
    (h : findTask task l = some e) : e ∈ l ∧ e.1 = task := by
  induction l with
  | nil => simp [findTask] at h
  | cons x xs ih =>
    by_cases hx : x.1 = task
    · simp only [findTask, if_pos hx] at h
      cases h
      exact ⟨List.mem_cons_self .., hx⟩
    · simp only [findTask, if_neg hx] at h
      obtain ⟨hm, ht⟩ := ih h
      exact ⟨List.mem_cons_of_mem _ hm, ht⟩

/-! ## Lemmas about the history helpers -/

theorem histC_setRemoved (h : List (String × HistoryRecord)) (task now t : String) :
    histC (historySetRemoved h task now) t = histC h t := by
  unfold historySetRemoved
  cases hl : lookupA h task with
  | some r =>
    by_cases ht : t = task
    · subst ht
      simp [histC, lookupA_updateA_self, hl]
    · simp [histC, lookupA_updateA_ne _ _ _ _ ht]
  | none =>
    by_cases ht : t = task
    · subst ht
      simp [histC, lookupA_append_of_none _ hl, lookupA, hl]
    · cases hl' : lookupA h t with
      | some r' => simp [histC, lookupA_append_of_some _ hl', hl']
      | none =>
        simp only [histC, lookupA_append_of_none _ hl', lookupA, hl']
        rw [if_neg (fun he : task = t => ht he.symm)]

theorem histC_appendCompleted (h : List (String × HistoryRecord)) (task now t : String) :
    histC (historyAppendCompleted h task now) t =
      if t = task then histC h t ++ [now] else histC h t := by
  unfold historyAppendCompleted
  cases hl : lookupA h task with
  | some r =>
    by_cases ht : t = task
    · subst ht
      simp [histC, lookupA_updateA_self, hl]
    · simp [histC, lookupA_updateA_ne _ _ _ _ ht, ht]
  | none =>
    by_cases ht : t = task
    · subst ht
      simp [histC, lookupA_append_of_none _ hl, lookupA, hl]
    · cases hl' : lookupA h t with
      | some r' => simp [histC, lookupA_append_of_some _ hl', hl', ht]
      | none =>
        simp only [histC, lookupA_append_of_none _ hl', lookupA, hl', if_neg ht]
        rw [if_neg (fun he : task = t => ht he.symm)]

theorem histC_appendNew (h : List (String × HistoryRecord)) (task t : String)
    (c0 : Option String) (r0 : Option String) (hl : lookupA h task = none) :
    histC (h ++ [(task, ⟨c0, [], r0⟩)]) t = histC h t := by
  by_cases ht : t = task
  · subst ht
    simp [histC, lookupA_append_of_none _ hl, lookupA, hl]
  · cases hl' : lookupA h t with
    | some r' => simp [histC, lookupA_append_of_some _ hl', hl']
    | none =>
      simp only [histC, lookupA_append_of_none _ hl', lookupA, hl']
      rw [if_neg (fun he : task = t => ht he.symm)]

theorem growsTo_refl (a : List String) : growsTo a a := ⟨[], by simp⟩

theorem growsTo_append (a t : List String) : growsTo a (a ++ t) := ⟨t, rfl⟩

/-! ## Lemmas about the scheduler loops -/

theorem appendMatches_eq (render : String × String → String)
    (cond : String × String → Bool) (l : List (String × String)) (acc : List String) :
    appendMatches render cond l acc = acc ++ (l.filter cond).map render := by
  induction l generalizing acc with
  | nil => simp [appendMatches]
  | cons h hs ih =>
    by_cases hc : cond h
    · simp [appendMatches, hc, ih]
    · simp [appendMatches, hc, ih]

/-! ## Lemmas about the streak computation -/

theorem addOneDay_ne (t : Date) : addOneDay t ≠ t := by
  unfold addOneDay
  by_cases h1 : t.day < daysInMonth t.year t.month
  · simp only [if_pos h1]
    intro h
    have := congrArg Date.day h
    simp at this
  · by_cases h2 : t.month < 12
    · simp only [if_neg h1, if_pos h2]
      intro h
      have := congrArg Date.month h
      simp at this
    · simp only [if_neg h1, if_neg h2]
      intro h
      have := congrArg Date.year h
      simp at this

theorem streakLoop_max (ds : List Date) :
    ∀ (cur maxS : Nat) (last : Option Date),
      streakLoop ds cur maxS last = max maxS (streakLoop ds cur 0 last) := by
  induction ds with
  | nil => intro cur maxS last; simp [streakLoop]
  | cons d ds ih =>
    intro cur maxS last
    simp only [streakLoop]
    rw [ih _ (max maxS _) _, ih _ (max 0 _) _]
    omega

theorem streakLoop_some (ds : List Date) :
    ∀ (ld : Date) (cur : Nat),
      streakLoop ds cur 0 (some ld) =
        max (if 0 < contLen ld ds then cur + contLen ld ds else 0) (longestRun ds) := by
  induction ds with
  | nil => intro ld cur; simp [streakLoop, contLen, longestRun]
  | cons d ds ih =>
    intro ld cur
    simp only [streakLoop, contLen, longestRun, runLen]
    by_cases hd : d = addOneDay ld
    · simp only [if_pos hd]
      rw [streakLoop_max, ih d (cur + 1)]
      by_cases hc : 0 < contLen d ds
      · rw [if_pos (by omega : 0 < 1 + contLen d ds), if_pos hc]
        omega
      · rw [if_pos (by omega : 0 < 1 + contLen d ds), if_neg hc]
        omega
    · simp only [if_neg hd]
      rw [streakLoop_max, ih d 1]
      rw [if_neg (by omega : ¬ (0:Nat) < 0)]
      by_cases hc : 0 < contLen d ds
      · rw [if_pos hc]; omega
      · rw [if_neg hc]; omega

/-- The streak loop of `analyze_habits` computes exactly the
specification's longest consecutive-day run. -/
theorem streakFold_eq_longestRun (ds : List Date) : streakFold ds = longestRun ds := by
  cases ds with
  | nil => simp [streakFold, streakLoop, longestRun]
  | cons d ds =>
    simp only [streakFold, streakLoop, longestRun, runLen]
    rw [streakLoop_max, streakLoop_some ds d 1]
    by_cases hc : 0 < contLen d ds
    · rw [if_pos hc]; omega
    · rw [if_neg hc]; omega

/-! ## Lemmas about the strict running-maximum accumulator -/

theorem listMax_le {α : Type} (f : α → Nat) {l : List α} {x : α} (hx : x ∈ l) :
    f x ≤ listMax f l := by
  induction l with
  | nil => simp at hx
  | cons y ys ih =>
    rcases List.mem_cons.1 hx with h | h
    · subst h; simp only [listMax, List.map_cons, List.foldr_cons]; omega
    · have := ih h
      simp only [listMax, List.map_cons, List.foldr_cons] at *
      omega

theorem listMax_attained {α : Type} (f : α → Nat) {l : List α} (hne : l ≠ []) :
    ∃ x ∈ l, f x = listMax f l := by
  induction l with
  | nil => exact absurd rfl hne
  | cons y ys ih =>
    cases ys with
    | nil =>
      refine ⟨y, List.mem_cons_self .., ?_⟩
      simp [listMax]
    | cons z zs =>
      have hmax : listMax f (y :: z :: zs) = max (f y) (listMax f (z :: zs)) := by
        simp [listMax]
      by_cases hy : listMax f (z :: zs) ≤ f y
      · exact ⟨y, List.mem_cons_self .., by omega⟩
      · obtain ⟨x, hx, hfx⟩ := ih (by simp)
        exact ⟨x, List.mem_cons_of_mem _ hx, by omega⟩

theorem argmaxGo_snd {α β : Type} (f : α → Nat) (g : α → β) (l : List α) :
    ∀ st : Option β × Nat, (argmaxGo f g l st).2 = max st.2 (listMax f l) := by
  induction l with
  | nil => intro st; simp [argmaxGo, listMax]
  | cons x xs ih =>
    intro st
    simp only [argmaxGo]
    rw [ih]
    by_cases hx : f x > st.2
    · rw [if_pos hx]
      simp only [listMax, List.map_cons, List.foldr_cons] at *
      omega
    · rw [if_neg hx]
      simp only [listMax, List.map_cons, List.foldr_cons] at *
      omega

theorem argmaxGo_of_le {α β : Type} (f : α → Nat) (g : α → β) (l : List α) :
    ∀ st : Option β × Nat, listMax f l ≤ st.2 → argmaxGo f g l st = st := by
  induction l with
  | nil => intro st _; simp [argmaxGo]
  | cons x xs ih =>
    intro st hle
    have hx : f x ≤ st.2 := le_trans (listMax_le f (List.mem_cons_self ..)) hle
    have hxs : listMax f xs ≤ st.2 := by
      simp only [listMax, List.map_cons, List.foldr_cons] at hle ⊢
      omega
    simp only [argmaxGo, if_neg (by omega : ¬ f x > st.2)]
    exact ih st hxs

theorem argmaxGo_fst {α β : Type} (f : α → Nat) (g : α → β) (l : List α) :
    ∀ (st : Option β × Nat) (x0 : α),
      List.find? (fun x => f x = listMax f l) l = some x0 →
      st.2 < listMax f l →
      (argmaxGo f g l st).1 = some (g x0) := by
  induction l with
  | nil => intro st x0 hf _; simp at hf
  | cons y ys ih =>
    intro st x0 hf hlt
    have hmax : listMax f (y :: ys) = max (f y) (listMax f ys) := by
      simp [listMax]
    have hyle : f y ≤ listMax f (y :: ys) := listMax_le f (List.mem_cons_self ..)
    by_cases hy : f y = listMax f (y :: ys)
    · simp [List.find?_cons, hy] at hf
      have hfy : y = x0 := hf
      subst hfy
      have hgt : f y > st.2 := by omega
      simp only [argmaxGo, if_pos hgt]
      have hys2 : listMax f ys ≤ f y := by omega
      rw [argmaxGo_of_le f g ys (some (g y), f y) hys2]
    · have hyd : decide (f y = listMax f (y :: ys)) = false := by
        simp [hy]
      simp only [List.find?_cons, hyd] at hf
      have hys : listMax f (y :: ys) = listMax f ys := by omega
      rw [hys] at hlt
      simp only [hys] at hf
      by_cases hgt : f y > st.2
      · simp only [argmaxGo, if_pos hgt]
        exact ih _ x0 hf (by omega)
      · simp only [argmaxGo, if_neg hgt]
        exact ih st x0 hf hlt

theorem codeStreak_eq_specStreak (e : String × HistoryRecord) :
    codeStreak e = specStreak e := by
  simp [codeStreak, specStreak, streakFold_eq_longestRun]

/-! ## Splitting the history loop of `analyze_habits` -/

theorem analyzeLoop_split (h : List (String × HistoryRecord)) :
    ∀ (st st' : (Option String × Nat) × (Option String × Nat)),
      analyzeLoop h st = some st' →
      st' = (argmaxGo codeStreak (fun e => e.1) h st.1,
             argmaxGo specCount (fun e => e.1) h st.2) := by
  induction h with
  | nil =>
    intro st st' he
    simp [analyzeLoop] at he
    simp [argmaxGo, ← he]
  | cons e es ih =>
    intro st st' he
    simp only [analyzeLoop, List.foldlM_cons] at he
    cases hm : e.2.completed.mapM strptimeMicroDate with
    | none =>
      simp only [analyzeStep] at he
      rw [hm] at he
      simp at he
    | some dates =>
      simp only [analyzeStep] at he
      rw [hm] at he
      simp only [Option.bind_eq_bind, Option.some_bind, Option.getD_some] at he
      have hcs : codeStreak e = streakFold (sortDates dates) := by
        unfold codeStreak
        rw [hm]
        rfl
      have he' : analyzeLoop es
          (if streakFold (sortDates dates) > st.1.2
             then (some e.1, streakFold (sortDates dates)) else st.1,
           if e.2.completed.length > st.2.2
             then (some e.1, e.2.completed.length) else st.2) = some st' := he
      have hrec := ih _ _ he'
      simp only [hrec, argmaxGo, hcs, specCount, gt_iff_lt]

/-! ## Claim theorems -/

/-- C9: for every input string that does not parse in the `YYYY-MM-DD`
format, `get_tasks_for_day` reports the invalid date and returns the empty
list.  The operation is a pure query of the document — its type carries no
updated registry and no save flag — so neither the registry nor the
persisted document can change. -/
theorem c9_invalid_date_empty (d : HabitData) (s : String)
    (h : strptimeYMD s = none) : get_tasks_for_day d s = [] := by
  unfold get_tasks_for_day
  rw [h]

/-- Witness for C9 at the unparseable input `"not-a-date"`. -/
theorem c9_invalid_date_empty_witness :
    strptimeYMD "not-a-date" = none ∧ get_tasks_for_day dFull "not-a-date" = [] :=
  ⟨by decide, c9_invalid_date_empty dFull "not-a-date" (by decide)⟩

/-- C2, counterexample: `"2024-1-1"` parses in the `%Y-%m-%d` format (the
month and day tokens accept one digit), its canonical `YYYY-MM-DD` form is
`"2024-01-01"`, and the once-off schedule `"2024-01-01 17:00"` starts with
that canonical form — so the claim requires the entry in the output — yet
`get_tasks_for_day` returns nothing, because the OnceOff rule compares
against the raw input string `"2024-1-1"`. -/
theorem c2_counterexample :
    strptimeYMD "2024-1-1" = some ⟨2024, 1, 1⟩ ∧
    pyStartsWith "2024-01-01 17:00" "2024-01-01" = true ∧
    bucketU dOnceOff "once_off" = [("Party", "2024-01-01 17:00")] ∧
    get_tasks_for_day dOnceOff "2024-1-1" = [] := by decide

/-- C2, amended: for every date string that parses in the `%Y-%m-%d`
format, `get_tasks_for_day` returns exactly the concatenation, in this
order, of the Daily entries (unconditional), the Weekly entries whose
schedule contains the date's full English weekday name, the Monthly
entries whose schedule starts with the two-digit day-of-month, the Yearly
entries whose schedule starts with `MM-DD`, and the OnceOff entries whose
schedule starts with the input date string exactly as given (which
coincides with `YYYY-MM-DD` only for zero-padded input), each rendered as
`"<Period>: <task> at <schedule>"`. -/
theorem c2_tasks_due (d : HabitData) (date : String) (t : Date)
    (h : strptimeYMD date = some t) :
    get_tasks_for_day d date = tasksDueOnSpec d date t := by
  unfold get_tasks_for_day tasksDueOnSpec
  rw [h]
  simp only [appendMatches_eq, List.append_assoc, List.nil_append, List.filter_true]

/-- Witness for C2 at a registry with every bucket inhabited on
2024-10-15 (a Tuesday). -/
theorem c2_tasks_due_witness :
    get_tasks_for_day dFull "2024-10-15" = tasksDueOnSpec dFull "2024-10-15" ⟨2024, 10, 15⟩ :=
  c2_tasks_due dFull "2024-10-15" ⟨2024, 10, 15⟩ (by decide)

/-- C5: the code stores the coarse `YYYY-MM-DD HH:MM` timestamp that
`add_completed_habit` receives straight into the history, but
`analyze_habits` parses every history timestamp with the single format
`%Y-%m-%d %H:%M:%S.%f`; the microsecond form parses while the coarse form
is a `ValueError`, so the analysis aborts (returns `none`) on exactly the
data the code itself records. -/
theorem c5_coarse_timestamp_rejected :
    strptimeMicroDate "2024-11-01 17:00:00.000000" = some ⟨2024, 11, 1⟩ ∧
    strptimeMicroDate "2024-11-01 17:00" = none ∧
    (add_completed_habit dEmpty "once_off" "Project Deadline" "2024-11-01 17:00").1.history =
      [("Project Deadline", ⟨none, ["2024-11-01 17:00"], none⟩)] ∧
    analyze_habits dCoarse = none := by decide

/-- C10: the streak continuation test is equality with the previous date
plus exactly one day, so a repeated calendar date takes the reset branch
(`current_streak = 1`); on three consecutive days of completions with the
middle day completed twice, the reported longest streak is 2, strictly
less than the 3 consecutive days. -/
theorem c10_duplicate_date_resets :
    (∀ (dte : Date) (ds : List Date) (cur maxS : Nat),
      streakLoop (dte :: ds) cur maxS (some dte) = streakLoop ds 1 (max maxS 1) (some dte)) ∧
    analyze_habits dDupY = some ⟨(some "Y", 2), [], (some "Y", 4)⟩ := by
  constructor
  · intro dte ds cur maxS
    simp only [streakLoop]
    rw [if_neg (fun hh : dte = addOneDay dte => addOneDay_ne dte hh.symm)]
  · decide

/-- C7, counterexample: on the empty document that `load_habit_data`
returns after a failed load, the valid period name `"daily"` fails the
period check of `add_uncompleted_habit` — nothing is appended and nothing
is saved — contradicting the claim that the five valid names pass the
check regardless of the shape of the loaded document. -/
theorem c7_counterexample :
    "daily" ∈ expected_periods ∧
    add_uncompleted_habit dLoadFailed "daily" "T" "07:00" "2024-01-01 00:00:00.000000" =
      (dLoadFailed, false) := by decide

/-- C1: whenever the uncompleted bucket of `period` holds an entry whose
task matches, `move_to_completed` saves, appends `(task, now)` to
`completed[period]`, appends `now` to `history[task].completed`, and the
uncompleted bucket loses the matched entry exactly when the period is
`"once_off"` — for every other period it is left unchanged, so the entry
remains present. -/
theorem c1_move_to_completed (d : HabitData) (period task now : String)
    (ul cl : List (String × String)) (e : String × String)
    (hu : lookupA d.uncompleted_habits period = some ul)
    (hc : lookupA d.completed_habits period = some cl)
    (he : findTask task ul = some e) :
    (move_to_completed d period task now).2 = true ∧
    bucketC (move_to_completed d period task now).1 period = cl ++ [(task, now)] ∧
    histCompleted (move_to_completed d period task now).1 task =
      histCompleted d task ++ [now] ∧
    bucketU (move_to_completed d period task now).1 period =
      (if period = "once_off" then removeFirstVal e ul else ul) := by
  unfold move_to_completed
  simp only [hu, hc, he]
  by_cases hp : period = "once_off"
  · simp only [if_pos hp]
    refine ⟨trivial, ?_, ?_, ?_⟩
    · simp [bucketC, lookupA_updateA_self, hc]
    · simp [histCompleted, histC_appendCompleted]
    · simp [bucketU, lookupA_updateA_self, lookupA_updateA_ne, hu]
  · simp only [if_neg hp]
    refine ⟨trivial, ?_, ?_, ?_⟩
    · simp [bucketC, lookupA_updateA_self, hc]
    · simp [histCompleted, histC_appendCompleted]
    · simp [bucketU, hu]

/-- Witness for C1: completing the once-off habit of `dOnceOff` empties
its uncompleted bucket, and the completion is recorded. -/
theorem c1_move_to_completed_witness :
    (move_to_completed dOnceOff "once_off" "Party" "2024-01-01 17:30:00.000000").2 = true ∧
    bucketC (move_to_completed dOnceOff "once_off" "Party" "2024-01-01 17:30:00.000000").1
        "once_off" = [] ++ [("Party", "2024-01-01 17:30:00.000000")] ∧
    histCompleted (move_to_completed dOnceOff "once_off" "Party" "2024-01-01 17:30:00.000000").1
        "Party" = histCompleted dOnceOff "Party" ++ ["2024-01-01 17:30:00.000000"] ∧
    bucketU (move_to_completed dOnceOff "once_off" "Party" "2024-01-01 17:30:00.000000").1
        "once_off" =
      (if "once_off" = "once_off"
        then removeFirstVal ("Party", "2024-01-01 17:00") [("Party", "2024-01-01 17:00")]
        else [("Party", "2024-01-01 17:00")]) :=
  c1_move_to_completed dOnceOff "once_off" "Party" "2024-01-01 17:30:00.000000"
    [("Party", "2024-01-01 17:00")] [] ("Party", "2024-01-01 17:00")
    (by decide) (by decide) (by decide)

/-- C6: each operation aborts without altering state under the no-match
condition of its own targeted bucket alone.  Whenever the uncompleted
bucket of `period` holds no entry whose task matches — regardless of what
the completed bucket holds — `remove_uncompleted_habit`,
`move_to_completed` and `edit_uncompleted_habit` report the failure and
return the document unchanged with no save performed; and whenever the
completed bucket holds no matching entry — regardless of the uncompleted
bucket — so does `remove_completed_habit`. -/
theorem c6_not_found_no_mutation (d : HabitData) (period task now : String)
    (nt ns : Option String) (ul cl : List (String × String))
    (hu : lookupA d.uncompleted_habits period = some ul)
    (hc : lookupA d.completed_habits period = some cl) :
    (findTask task ul = none →
      remove_uncompleted_habit d period task now = (d, false) ∧
      move_to_completed d period task now = (d, false) ∧
      edit_uncompleted_habit d period task nt ns = (d, false)) ∧
    (findTask task cl = none →
      remove_completed_habit d period task now = (d, false)) := by
  constructor
  · intro hnu
    refine ⟨?_, ?_, ?_⟩
    · unfold remove_uncompleted_habit
      simp only [hu, hnu]
    · unfold move_to_completed
      simp only [hu, hc, hnu]
    · unfold edit_uncompleted_habit
      simp only [hu, hnu]
  · intro hnc
    unfold remove_completed_habit
    simp only [hc, hnc]

/-- Witness for C6 at a once-off habit that has already been completed:
the task sits in the completed bucket but is gone from the uncompleted
bucket, so re-completing (or removing/editing) it is a no-op, and
removing a task absent from the completed bucket is a no-op as well. -/
theorem c6_not_found_no_mutation_witness :
    (remove_uncompleted_habit dOnceDone "once_off" "Party" "now" = (dOnceDone, false) ∧
     move_to_completed dOnceDone "once_off" "Party" "now" = (dOnceDone, false) ∧
     edit_uncompleted_habit dOnceDone "once_off" "Party" none none = (dOnceDone, false)) ∧
    remove_completed_habit dOnceDone "once_off" "Absent" "now" = (dOnceDone, false) :=
  ⟨(c6_not_found_no_mutation dOnceDone "once_off" "Party" "now" none none
      [] [("Party", "2024-01-01 17:30:00.000000")] (by decide) (by decide)).1 (by decide),
   (c6_not_found_no_mutation dOnceDone "once_off" "Absent" "now" none none
      [] [("Party", "2024-01-01 17:30:00.000000")] (by decide) (by decide)).2 (by decide)⟩

/-- C7, amended: the period check of each operation passes exactly when
the period is a key of the relevant dict of the loaded document.  On a
well-formed document those keys are precisely
`{daily, weekly, monthly, yearly, once_off}`, so the five valid names pass
and every other name is reported as a soft failure — the operation returns
the document unchanged, performs no save, and raises nothing (it is a
total function).  On a malformed document even a valid name can fail the
check (see the counterexample). -/
theorem c7_period_check (d : HabitData) (hw : Wf d) (period : String) :
    ((lookupA d.uncompleted_habits period).isSome = true ↔ period ∈ expected_periods) ∧
    ((lookupA d.completed_habits period).isSome = true ↔ period ∈ expected_periods) ∧
    (period ∉ expected_periods →
      ∀ (task time now ct : String) (nt ns : Option String),
        add_uncompleted_habit d period task time now = (d, false) ∧
        remove_uncompleted_habit d period task now = (d, false) ∧
        move_to_completed d period task now = (d, false) ∧
        add_completed_habit d period task ct = (d, false) ∧
        remove_completed_habit d period task now = (d, false) ∧
        edit_uncompleted_habit d period task nt ns = (d, false)) := by
  obtain ⟨hw1, hw2⟩ := hw
  have h1 : (lookupA d.uncompleted_habits period).isSome = true ↔ period ∈ expected_periods := by
    rw [lookupA_isSome_iff, hw1]
  have h2 : (lookupA d.completed_habits period).isSome = true ↔ period ∈ expected_periods := by
    rw [lookupA_isSome_iff, hw2]
  refine ⟨h1, h2, ?_⟩
  intro hnp task time now ct nt ns
  have hu : lookupA d.uncompleted_habits period = none := by
    cases hl : lookupA d.uncompleted_habits period with
    | none => rfl
    | some v => exact absurd (h1.mp (by simp [hl])) hnp
  have hc : lookupA d.completed_habits period = none := by
    cases hl : lookupA d.completed_habits period with
    | none => rfl
    | some v => exact absurd (h2.mp (by simp [hl])) hnp
  refine ⟨?_, ?_, ?_, ?_, ?_, ?_⟩
  · unfold add_uncompleted_habit
    simp only [hu]
  · unfold remove_uncompleted_habit
    simp only [hu]
  · unfold move_to_completed
    simp only [hu]
  · unfold add_completed_habit
    simp only [hc]
  · unfold remove_completed_habit
    simp only [hc]
  · unfold edit_uncompleted_habit
    simp only [hu]

/-- Witness for C7 on the empty well-formed registry at the invalid period
name `"hourly"`. -/
theorem c7_period_check_witness :
    ((lookupA dEmpty.uncompleted_habits "hourly").isSome = true ↔ "hourly" ∈ expected_periods) ∧
    ((lookupA dEmpty.completed_habits "hourly").isSome = true ↔ "hourly" ∈ expected_periods) ∧
    ("hourly" ∉ expected_periods →
      ∀ (task time now ct : String) (nt ns : Option String),
        add_uncompleted_habit dEmpty "hourly" task time now = (dEmpty, false) ∧
        remove_uncompleted_habit dEmpty "hourly" task now = (dEmpty, false) ∧
        move_to_completed dEmpty "hourly" task now = (dEmpty, false) ∧
        add_completed_habit dEmpty "hourly" task ct = (dEmpty, false) ∧
        remove_completed_habit dEmpty "hourly" task now = (dEmpty, false) ∧
        edit_uncompleted_habit dEmpty "hourly" task nt ns = (dEmpty, false)) :=
  c7_period_check dEmpty ⟨by decide, by decide⟩ "hourly"

/-- C8: no registry mutation ever removes or retracts a recorded
completion timestamp — for every operation, every argument and every task,
the `history[task].completed` sequence after the operation extends the
sequence before it. -/
theorem c8_history_only_grows (d : HabitData) (period task time now ct t' : String)
    (nt ns : Option String) :
    growsTo (histCompleted d t')
      (histCompleted (add_uncompleted_habit d period task time now).1 t') ∧
    growsTo (histCompleted d t')
      (histCompleted (remove_uncompleted_habit d period task now).1 t') ∧
    growsTo (histCompleted d t')
      (histCompleted (move_to_completed d period task now).1 t') ∧
    growsTo (histCompleted d t')
      (histCompleted (add_completed_habit d period task ct).1 t') ∧
    growsTo (histCompleted d t')
      (histCompleted (remove_completed_habit d period task now).1 t') ∧
    growsTo (histCompleted d t')
      (histCompleted (edit_uncompleted_habit d period task nt ns).1 t') := by
  refine ⟨?_, ?_, ?_, ?_, ?_, ?_⟩
  · unfold add_uncompleted_habit
    cases hl : lookupA d.uncompleted_habits period with
    | none => exact growsTo_refl _
    | some lst =>
      by_cases hh : (lookupA d.history task).isNone
      · simp only [if_pos hh]
        have hln : lookupA d.history task = none := Option.isNone_iff_eq_none.mp hh
        simp only [histCompleted]
        rw [histC_appendNew d.history task t' (some now) none hln]
        exact growsTo_refl _
      · simp only [if_neg hh]
        exact growsTo_refl _
  · unfold remove_uncompleted_habit
    cases hl : lookupA d.uncompleted_habits period with
    | none => exact growsTo_refl _
    | some lst =>
      cases hf : findTask task lst with
      | none =>
        simp only [hf]
        exact growsTo_refl _
      | some habit =>
        simp only [hf, histCompleted]
        rw [histC_setRemoved d.history task now t']
        exact growsTo_refl _
  · unfold move_to_completed
    cases hl : lookupA d.uncompleted_habits period with
    | none => exact growsTo_refl _
    | some ul =>
      cases hl2 : lookupA d.completed_habits period with
      | none => exact growsTo_refl _
      | some cl =>
        cases hf : findTask task ul with
        | none =>
          simp only [hf]
          exact growsTo_refl _
        | some habit =>
          by_cases hp : period = "once_off"
          · simp only [hf, if_pos hp, histCompleted]
            rw [histC_appendCompleted d.history task now t']
            by_cases ht : t' = task
            · rw [if_pos ht]
              exact growsTo_append _ _
            · rw [if_neg ht]
              exact growsTo_refl _
          · simp only [hf, if_neg hp, histCompleted]
            rw [histC_appendCompleted d.history task now t']
            by_cases ht : t' = task
            · rw [if_pos ht]
              exact growsTo_append _ _
            · rw [if_neg ht]
              exact growsTo_refl _
  · unfold add_completed_habit
    cases hl : lookupA d.completed_habits period with
    | none => exact growsTo_refl _
    | some lst =>
      simp only [histCompleted]
      rw [histC_appendCompleted d.history task ct t']
      by_cases ht : t' = task
      · rw [if_pos ht]
        exact growsTo_append _ _
      · rw [if_neg ht]
        exact growsTo_refl _
  · unfold remove_completed_habit
    cases hl : lookupA d.completed_habits period with
    | none => exact growsTo_refl _
    | some lst =>
      cases hf : findTask task lst with
      | none =>
        simp only [hf]
        exact growsTo_refl _
      | some habit =>
        simp only [hf, histCompleted]
        rw [histC_setRemoved d.history task now t']
        exact growsTo_refl _
  · unfold edit_uncompleted_habit
    cases hl : lookupA d.uncompleted_habits period with
    | none => exact growsTo_refl _
    | some lst =>
      cases hf : findTask task lst with
      | none =>
        simp only [hf]
        exact growsTo_refl _
      | some habit =>
        simp only [hf]
        exact growsTo_refl _

/-- C3: `longest_streak` reports, per task, the longest run over the
task's completion timestamps reduced to calendar dates and sorted
ascending in which each date is exactly one day after the previous
(`specStreak`); the reported length is the maximum of that value over the
history, the reported habit is the first task attaining it (when positive),
and on the specification's example history — completions for `"X"` on
2024-01-01, 01-02, 01-03 and 01-10 — the result is habit `"X"` with
length 3. -/
theorem c3_longest_streak (d : HabitData) (a : Analysis)
    (h : analyze_habits d = some a) :
    a.longest_streak.2 = listMax specStreak d.history ∧
    (1 ≤ listMax specStreak d.history →
      ∃ e0, List.find? (fun e => specStreak e = listMax specStreak d.history) d.history
          = some e0 ∧
        a.longest_streak = (some e0.1, listMax specStreak d.history)) ∧
    analyze_habits dStreakX = some ⟨(some "X", 3), [], (some "X", 4)⟩ := by
  have hfun : codeStreak = specStreak := funext codeStreak_eq_specStreak
  simp only [analyze_habits, Option.map_eq_some'] at h
  obtain ⟨st, hst, rfl⟩ := h
  have hsplit := analyzeLoop_split d.history _ _ hst
  rw [hfun] at hsplit
  refine ⟨?_, ?_, by decide⟩
  · show st.1.2 = listMax specStreak d.history
    rw [hsplit]
    show (argmaxGo specStreak (fun e => e.1) d.history ((none, 0) : Option String × Nat)).2
      = listMax specStreak d.history
    rw [argmaxGo_snd]
    show max 0 (listMax specStreak d.history) = listMax specStreak d.history
    omega
  · intro hpos
    have hne : d.history ≠ [] := by
      intro hh
      rw [hh] at hpos
      simp [listMax] at hpos
    obtain ⟨x0, hmem, hfx⟩ := listMax_attained specStreak hne
    have hfind : (List.find? (fun e => specStreak e = listMax specStreak d.history)
        d.history).isSome = true := by
      rw [List.find?_isSome]
      exact ⟨x0, hmem, by simp [hfx]⟩
    obtain ⟨e0, he0⟩ := Option.isSome_iff_exists.mp hfind
    refine ⟨e0, he0, ?_⟩
    show st.1 = (some e0.1, listMax specStreak d.history)
    rw [hsplit]
    show argmaxGo specStreak (fun e => e.1) d.history ((none, 0) : Option String × Nat)
      = (some e0.1, listMax specStreak d.history)
    refine Prod.ext_iff.mpr ⟨?_, ?_⟩
    · exact argmaxGo_fst specStreak (fun e => e.1) d.history ((none, 0)) e0 he0
        (by show (0 : Nat) < listMax specStreak d.history; omega)
    · rw [argmaxGo_snd]
      show max 0 (listMax specStreak d.history) = listMax specStreak d.history
      omega

/-- Witness for C3 on the specification's example history. -/
theorem c3_longest_streak_witness :
    (Analysis.longest_streak ⟨(some "X", 3), [], (some "X", 4)⟩).2 =
      listMax specStreak dStreakX.history :=
  (c3_longest_streak dStreakX ⟨(some "X", 3), [], (some "X", 4)⟩ (by decide)).1

/-- C4, counterexample: on a history whose only (hence first) task `"A"`
has zero recorded completions, the greatest total completion count is 0
and is attained by `"A"`, yet `most_challenging` reports no habit at all
(`None`) rather than `"A"`, because the leader is only ever replaced on a
strictly positive count. -/
theorem c4_counterexample :
    listMax specCount dZeroA.history = 0 ∧
    dZeroA.history.map Prod.fst = ["A"] ∧
    analyze_habits dZeroA = some ⟨(none, 0), [], (none, 0)⟩ := by decide

/-- C4, amended: whenever some task has at least one recorded completion,
`most_challenging` reports the first task (in history-insertion order)
whose total completion count equals the maximum, together with that count;
the leader is replaced only on a strictly greater count, so ties keep the
earlier task.  When every task has zero completions the reported habit is
`None` (see the counterexample). -/
theorem c4_most_challenging (d : HabitData) (a : Analysis)
    (h : analyze_habits d = some a)
    (hpos : 1 ≤ listMax specCount d.history) :
    ∃ e0, List.find? (fun e => specCount e = listMax specCount d.history) d.history
        = some e0 ∧
      a.most_challenging = (some e0.1, listMax specCount d.history) := by
  simp only [analyze_habits, Option.map_eq_some'] at h
  obtain ⟨st, hst, rfl⟩ := h
  have hsplit := analyzeLoop_split d.history _ _ hst
  have hne : d.history ≠ [] := by
    intro hh
    rw [hh] at hpos
    simp [listMax] at hpos
  obtain ⟨x0, hmem, hfx⟩ := listMax_attained specCount hne
  have hfind : (List.find? (fun e => specCount e = listMax specCount d.history)
      d.history).isSome = true := by
    rw [List.find?_isSome]
    exact ⟨x0, hmem, by simp [hfx]⟩
  obtain ⟨e0, he0⟩ := Option.isSome_iff_exists.mp hfind
  refine ⟨e0, he0, ?_⟩
  show st.2 = (some e0.1, listMax specCount d.history)
  rw [hsplit]
  show argmaxGo specCount (fun e => e.1) d.history ((none, 0) : Option String × Nat)
    = (some e0.1, listMax specCount d.history)
  refine Prod.ext_iff.mpr ⟨?_, ?_⟩
  · exact argmaxGo_fst specCount (fun e => e.1) d.history ((none, 0)) e0 he0
      (by show (0 : Nat) < listMax specCount d.history; omega)
  · rw [argmaxGo_snd]
    show max 0 (listMax specCount d.history) = listMax specCount d.history
    omega

/-- Witness for C4 on the example history (task `"X"`, four completions). -/
theorem c4_most_challenging_witness :
    ∃ e0, List.find? (fun e => specCount e = listMax specCount dStreakX.history)
        dStreakX.history = some e0 ∧
      (Analysis.most_challenging ⟨(some "X", 3), [], (some "X", 4)⟩) =
        (some e0.1, listMax specCount dStreakX.history) :=
  c4_most_challenging dStreakX ⟨(some "X", 3), [], (some "X", 4)⟩ (by decide) (by decide)
